import Mathlib

/-
  Verification development for the two-venue crypto arbitrage tool
  (single-file Flask application, src/app.py).

  The embedding below translates the pure computational core of app.py
  into Lean: python floats are modelled as rationals, python round()
  as round-half-to-even, dictionaries returned by the adapters as an
  explicit result type, and the request handler trigger_execute_trade
  as a pure function over an injected environment (live price tables,
  the Binance lot-size lookup, and the two order-submission adapters),
  threading the global trade_history list explicitly and recording the
  trace of order submissions.
-/

namespace CryptoArb

/-- The two configured venues. -/
inductive Exchange where
  | binance : Exchange
  | okx : Exchange
deriving DecidableEq, Repr

/-- One invocation of a venue order-submission function
    (execute_binance_trade / execute_okx_trade in app.py). -/
structure Order where
  exchange : Exchange
  symbol : String
  side : String
  quantity : ℚ
deriving DecidableEq, Repr

/-- Outcome of one adapter call, after the retry decorator:
    raised models a RequestException propagating out of the handler
    (transport failure after retry exhaustion, or raise_for_status);
    errorDict models the dict containing an error key returned by the
    generic exception handler; ok carries the fields the handler reads
    from a successful venue response (native order id and fill price,
    each possibly missing from the response JSON). -/
inductive AdapterResult where
  | raised : AdapterResult
  | errorDict : String → AdapterResult
  | ok : Option String → Option ℚ → AdapterResult
deriving DecidableEq, Repr

/-- The distinct early returns of trigger_execute_trade in app.py:
    the three abort(400) validations, the 500 LOT_SIZE response, the
    400 not-profitable response, the buy-leg and sell-leg 500 error
    responses, and an uncaught adapter exception. -/
inductive RunError where
  | invalidSymbol : RunError
  | invalidExchange : RunError
  | sameExchange : RunError
  | lotSizeNotFound : RunError
  | notProfitable : RunError
  | buyFailed : String → RunError
  | sellFailed : String → RunError
  | raisedException : RunError
deriving DecidableEq, Repr

/-- The trade_entry dict appended to trade_history (app.py lines 458-472). -/
structure TradeEntry where
  time : String
  symbol : String
  buy_exchange : String
  sell_exchange : String
  buy_trade_id : String
  sell_trade_id : String
  buy_price : ℚ
  sell_price : ℚ
  quantity : ℚ
  buy_fee : ℚ
  sell_fee : ℚ
  profit : ℚ
  status : String
deriving DecidableEq, Repr

/-- The ambient state and collaborators a run of trigger_execute_trade
    reads: the LIVE_PRICES tables for each venue, the result of
    get_binance_lot_size (LOT_SIZE_CACHE plus the exchangeInfo fetch;
    none models the (None, None) failure return), and the two order
    adapters. The source has no OKX lot-constraint lookup at all, so
    the environment carries none. -/
structure Env where
  now : String
  binancePrices : String → Option ℚ
  okxPrices : String → Option ℚ
  binanceLot : String → Option (ℚ × ℕ)
  binanceOrder : String → String → ℚ → AdapterResult
  okxOrder : String → String → ℚ → AdapterResult

/-- Result of one run: the HTTP-level outcome, the new trade_history,
    and the trace of order-submission invocations in order. -/
structure RunOutcome where
  result : Except RunError TradeEntry
  history : List TradeEntry
  orders : List Order

/-- python str.upper() restricted to ASCII, applied characterwise. -/
def strUpper (s : String) : String := String.mk (s.data.map Char.toUpper)

/-- SUPPORTED_SYMBOLS from app.py: canonical ticker, Binance native
    symbol, OKX native symbol. -/
def SUPPORTED_SYMBOLS : List (String × String × String) :=
  [("BTC", "BTCUSDT", "BTC-USDT"),
   ("ETH", "ETHUSDT", "ETH-USDT"),
   ("XRP", "XRPUSDT", "XRP-USDT"),
   ("SOL", "SOLUSDT", "SOL-USDT"),
   ("ADA", "ADAUSDT", "ADA-USDT")]

/-- Default fee rate per leg (the 0.001 default of calculate_profitability). -/
def default_fee : ℚ := 1 / 1000

/-- Python round() on an exact rational: round half to even. -/
def roundHalfEven (x : ℚ) : ℤ :=
  if x - ⌊x⌋ < 1 / 2 then ⌊x⌋
  else if 1 / 2 < x - ⌊x⌋ then ⌊x⌋ + 1
  else if ⌊x⌋ % 2 = 0 then ⌊x⌋ else ⌊x⌋ + 1

/-- Formatting a value to a fixed number of decimal places, as the
    f-string with a precision specifier does: round half to even at
    that decimal position. -/
def fmtPrec (x : ℚ) (p : ℕ) : ℚ :=
  (roundHalfEven (x * 10 ^ p) : ℚ) / 10 ^ p

/-- round_quantity from app.py (lines 161-163):
    rounded = round(quantity / step_size) * step_size, then the result
    is formatted to the declared precision. -/
def round_quantity (quantity step_size : ℚ) (precision : ℕ) : ℚ :=
  fmtPrec ((roundHalfEven (quantity / step_size) : ℚ) * step_size) precision

/-- calculate_profitability from app.py (lines 307-311). -/
def calculate_profitability (buy_price sell_price quantity buy_fee sell_fee : ℚ) :
    ℚ × ℚ × ℚ :=
  let buy_cost := buy_price * quantity * (1 + buy_fee)
  let sell_revenue := sell_price * quantity * (1 - sell_fee)
  (sell_revenue - buy_cost, buy_cost * buy_fee, sell_revenue * sell_fee)

/-- The raw quantity computed in trigger_execute_trade (line 416):
    max(0.01, 10 / buy_price) when the buy price is positive, else 0.01. -/
def raw_quantity (buy_price : ℚ) : ℚ :=
  if buy_price > 0 then max (1 / 100) (10 / buy_price) else 1 / 100

/-- float(resp.get(key, quote) or quote): a missing or falsy (zero)
    fill price falls back to the pre-trade quote. -/
def fillOrQuote (px : Option ℚ) (quote : ℚ) : ℚ :=
  match px with
  | none => quote
  | some p => if p = 0 then quote else p

/-- Dispatch an order submission to the adapter of the given venue. -/
def adapterCall (env : Env) (ex : Exchange) (s side : String) (q : ℚ) : AdapterResult :=
  match ex with
  | Exchange.binance => env.binanceOrder s side q
  | Exchange.okx => env.okxOrder s side q

/-- The two-leg execution section of trigger_execute_trade
    (lines 430-453): submit the buy leg; on an error dict or an
    exception return at once; otherwise submit the sell leg, then
    extract trade ids and fill prices. Returns the outcome together
    with the invocation trace. -/
def execute_pair (env : Env) (buyEx sellEx : Exchange)
    (buySym sellSym buySide sellSide : String) (q bp sp : ℚ) :
    Except RunError (String × String × ℚ × ℚ) × List Order :=
  match adapterCall env buyEx buySym buySide q with
  | AdapterResult.raised =>
      (Except.error RunError.raisedException, [⟨buyEx, buySym, buySide, q⟩])
  | AdapterResult.errorDict m =>
      (Except.error (RunError.buyFailed m), [⟨buyEx, buySym, buySide, q⟩])
  | AdapterResult.ok bid bpx =>
      match adapterCall env sellEx sellSym sellSide q with
      | AdapterResult.raised =>
          (Except.error RunError.raisedException,
           [⟨buyEx, buySym, buySide, q⟩, ⟨sellEx, sellSym, sellSide, q⟩])
      | AdapterResult.errorDict m =>
          (Except.error (RunError.sellFailed m),
           [⟨buyEx, buySym, buySide, q⟩, ⟨sellEx, sellSym, sellSide, q⟩])
      | AdapterResult.ok sid spx =>
          (Except.ok (bid.getD "N/A", sid.getD "N/A", fillOrQuote bpx bp, fillOrQuote spx sp),
           [⟨buyEx, buySym, buySide, q⟩, ⟨sellEx, sellSym, sellSide, q⟩])

/-- The execution section of trigger_execute_trade (lines 427-485):
    run the two legs in the direction fixed by the request, and on
    success build the trade_entry dict (realized profit recomputed from
    the fill prices, rounded to two decimals in the dict, status PROFIT
    or LOSS by the sign of the unrounded realized profit) and insert it
    at the front of trade_history. On a leg error nothing is appended. -/
def execution_run (env : Env) (history : List TradeEntry)
    (canon binance_symbol okx_symbol buy_exchange sell_exchange : String)
    (buy_price sell_price quantity : ℚ) : RunOutcome :=
  let legs :=
    if buy_exchange = "Binance" ∧ sell_exchange = "OKX" then
      execute_pair env Exchange.binance Exchange.okx binance_symbol okx_symbol
        "BUY" "sell" quantity buy_price sell_price
    else
      execute_pair env Exchange.okx Exchange.binance okx_symbol binance_symbol
        "buy" "SELL" quantity buy_price sell_price
  match legs.1 with
  | Except.error e => ⟨Except.error e, history, legs.2⟩
  | Except.ok (buy_trade_id, sell_trade_id, bfill, sfill) =>
    let pr2 := calculate_profitability bfill sfill quantity default_fee default_fee
    let entry : TradeEntry :=
      { time := env.now
        symbol := canon
        buy_exchange := buy_exchange
        sell_exchange := sell_exchange
        buy_trade_id := buy_trade_id
        sell_trade_id := sell_trade_id
        buy_price := bfill
        sell_price := sfill
        quantity := quantity
        buy_fee := pr2.2.1
        sell_fee := pr2.2.2
        profit := fmtPrec pr2.1 2
        status := if pr2.1 > 0 then "PROFIT" else "LOSS" }
    ⟨Except.ok entry, entry :: history, legs.2⟩

/-- The quantity and profitability section of trigger_execute_trade
    (lines 414-425): look up the Binance lot constraint (a missing
    lookup or a falsy zero step size is the 500 LOT_SIZE response),
    normalize the quantity, and gate on projected profit computed with
    the default fees. -/
def priced_run (env : Env) (history : List TradeEntry)
    (canon binance_symbol okx_symbol buy_exchange sell_exchange : String)
    (buy_price sell_price : ℚ) : RunOutcome :=
  match env.binanceLot binance_symbol with
  | none => ⟨Except.error RunError.lotSizeNotFound, history, []⟩
  | some (step_size, precision) =>
    if step_size = 0 then ⟨Except.error RunError.lotSizeNotFound, history, []⟩
    else
      let quantity := round_quantity (raw_quantity buy_price) step_size precision
      let pr := calculate_profitability buy_price sell_price quantity default_fee default_fee
      if pr.1 ≤ 0 then ⟨Except.error RunError.notProfitable, history, []⟩
      else
        execution_run env history canon binance_symbol okx_symbol
          buy_exchange sell_exchange buy_price sell_price quantity

/-- trigger_execute_trade from app.py (lines 384-485), as a pure
    function of the environment and the current trade_history.
    Faithful points: missing quotes default to 0 via dict.get(key, 0);
    the buy and sell prices are chosen from the venue tables by the
    requested direction; the lot constraint always comes from
    get_binance_lot_size on the Binance native symbol; the ledger
    insert happens only after both legs return without an error dict. -/
def trigger_execute_trade (env : Env) (history : List TradeEntry)
    (symbol buy_exchange sell_exchange : String) : RunOutcome :=
  match SUPPORTED_SYMBOLS.find? (fun t => t.1 == strUpper symbol) with
  | none => ⟨Except.error RunError.invalidSymbol, history, []⟩
  | some (canon, binance_symbol, okx_symbol) =>
    if ¬ (buy_exchange = "Binance" ∨ buy_exchange = "OKX")
        ∨ ¬ (sell_exchange = "Binance" ∨ sell_exchange = "OKX") then
      ⟨Except.error RunError.invalidExchange, history, []⟩
    else if buy_exchange = sell_exchange then
      ⟨Except.error RunError.sameExchange, history, []⟩
    else
      priced_run env history canon binance_symbol okx_symbol buy_exchange sell_exchange
        (if buy_exchange = "Binance" then (env.binancePrices binance_symbol).getD 0
         else (env.okxPrices okx_symbol).getD 0)
        (if buy_exchange = "Binance" then (env.okxPrices okx_symbol).getD 0
         else (env.binancePrices binance_symbol).getD 0)

deriving instance DecidableEq for Except

/-- Adapter double whose every call fails: either an exception after
    retry exhaustion or a returned error dict. -/
def failsAlways (f : String → String → ℚ → AdapterResult) : Prop :=
  ∀ s side q, f s side q = AdapterResult.raised ∨
    ∃ m, f s side q = AdapterResult.errorDict m

/-- Test environment: profitable BTC spread (Binance 100, OKX 101),
    both adapters succeed. -/
def envOk : Env :=
  { now := "2026-01-01 00:00:00"
    binancePrices := fun s => if s = "BTCUSDT" then some 100 else none
    okxPrices := fun s => if s = "BTC-USDT" then some 101 else none
    binanceLot := fun s => if s = "BTCUSDT" then some (1 / 10000, 4) else none
    binanceOrder := fun _ _ _ => AdapterResult.ok (some "B1") (some 100)
    okxOrder := fun _ _ _ => AdapterResult.ok (some "O1") (some 101) }

/-- Environment in which every Binance order submission is rejected by
    the venue (error dict), while OKX would accept. -/
def envBuyRejected : Env :=
  { now := "2026-01-01 00:00:00"
    binancePrices := fun s => if s = "BTCUSDT" then some 100 else none
    okxPrices := fun s => if s = "BTC-USDT" then some 101 else none
    binanceLot := fun s => if s = "BTCUSDT" then some (1 / 10000, 4) else none
    binanceOrder := fun _ _ _ => AdapterResult.errorDict "rejected"
    okxOrder := fun _ _ _ => AdapterResult.ok (some "O1") (some 101) }

/-- Environment in which the buy leg fills at 100.05 with a native
    order id, and the sell leg is rejected by the venue. -/
def envSellRejected : Env :=
  { now := "2026-01-01 00:00:00"
    binancePrices := fun s => if s = "BTCUSDT" then some 100 else none
    okxPrices := fun s => if s = "BTC-USDT" then some 101 else none
    binanceLot := fun s => if s = "BTCUSDT" then some (1 / 10000, 4) else none
    binanceOrder := fun _ _ _ => AdapterResult.ok (some "B1") (some (2001 / 20))
    okxOrder := fun _ _ _ => AdapterResult.errorDict "rejected" }

/-- Adapter double whose every call returns a successful response. -/
def succeedsAlways (f : String → String → ℚ → AdapterResult) : Prop :=
  ∀ s side q, ∃ bid bpx, f s side q = AdapterResult.ok bid bpx

/-- Environment in which every Binance order submission raises after
    retry exhaustion (transport failure or raise_for_status), while
    OKX would accept. -/
def envBuyRaised : Env :=
  { now := "2026-01-01 00:00:00"
    binancePrices := fun s => if s = "BTCUSDT" then some 100 else none
    okxPrices := fun s => if s = "BTC-USDT" then some 101 else none
    binanceLot := fun s => if s = "BTCUSDT" then some (1 / 10000, 4) else none
    binanceOrder := fun _ _ _ => AdapterResult.raised
    okxOrder := fun _ _ _ => AdapterResult.ok (some "O1") (some 101) }

/-- Environment in which the buy leg fills at 100.05 with a native
    order id, and the sell leg raises after retry exhaustion. -/
def envSellRaised : Env :=
  { now := "2026-01-01 00:00:00"
    binancePrices := fun s => if s = "BTCUSDT" then some 100 else none
    okxPrices := fun s => if s = "BTC-USDT" then some 101 else none
    binanceLot := fun s => if s = "BTCUSDT" then some (1 / 10000, 4) else none
    binanceOrder := fun _ _ _ => AdapterResult.ok (some "B1") (some (2001 / 20))
    okxOrder := fun _ _ _ => AdapterResult.raised }

/-- Environment with no Binance quote at all (feed not warmed up) and
    an OKX quote of 100; both adapters accept orders. -/
def envNoBuyQuote : Env :=
  { now := "2026-01-01 00:00:00"
    binancePrices := fun _ => none
    okxPrices := fun s => if s = "BTC-USDT" then some 100 else none
    binanceLot := fun s => if s = "BTCUSDT" then some (1 / 10000, 4) else none
    binanceOrder := fun _ _ _ => AdapterResult.ok (some "B1") none
    okxOrder := fun _ _ _ => AdapterResult.ok (some "O1") (some 100) }

/-- The entry produced by a successful run in envOk. -/
def entryOk : TradeEntry :=
  { time := "2026-01-01 00:00:00"
    symbol := "BTC"
    buy_exchange := "Binance"
    sell_exchange := "OKX"
    buy_trade_id := "B1"
    sell_trade_id := "O1"
    buy_price := 100
    sell_price := 101
    quantity := 1 / 10
    buy_fee := 1001 / 100000
    sell_fee := 100899 / 10000000
    profit := 2 / 25
    status := "PROFIT" }

/-- In execution_run the orders trace is the trace of the chosen
    execute_pair call, whatever the leg results were. -/
lemma execution_run_orders (env : Env) (hist : List TradeEntry)
    (canon bs os be se : String) (bp sp q : ℚ) :
    (execution_run env hist canon bs os be se bp sp q).orders =
      (if be = "Binance" ∧ se = "OKX" then
        execute_pair env Exchange.binance Exchange.okx bs os "BUY" "sell" q bp sp
      else
        execute_pair env Exchange.okx Exchange.binance os bs "buy" "SELL" q bp sp).2 := by
  simp only [execution_run]
  split <;> split <;> rfl

/-- execution_run either errors leaving the ledger unchanged or
    succeeds prepending exactly the returned entry. -/
lemma execution_run_result_history (env : Env) (hist : List TradeEntry)
    (canon bs os be se : String) (bp sp q : ℚ) :
    ((∃ err, (execution_run env hist canon bs os be se bp sp q).result = Except.error err) ∧
      (execution_run env hist canon bs os be se bp sp q).history = hist) ∨
    (∃ e, (execution_run env hist canon bs os be se bp sp q).result = Except.ok e ∧
      (execution_run env hist canon bs os be se bp sp q).history = e :: hist) := by
  simp only [execution_run]
  split <;> split <;>
    first
      | exact Or.inl ⟨⟨_, rfl⟩, rfl⟩
      | exact Or.inr ⟨_, rfl, rfl⟩

/-- priced_run either aborts before any submission (no orders, ledger
    unchanged, an error result) or reaches execution_run with the lot
    constraint from the Binance table and the normalized quantity. -/
lemma priced_run_cases (env : Env) (hist : List TradeEntry)
    (canon bs os be se : String) (bp sp : ℚ) :
    ((priced_run env hist canon bs os be se bp sp).orders = [] ∧
      (priced_run env hist canon bs os be se bp sp).history = hist ∧
      ∃ err, (priced_run env hist canon bs os be se bp sp).result = Except.error err) ∨
    (∃ stp : ℚ, ∃ prec : ℕ, env.binanceLot bs = some (stp, prec) ∧
      priced_run env hist canon bs os be se bp sp =
        execution_run env hist canon bs os be se bp sp
          (round_quantity (raw_quantity bp) stp prec)) := by
  simp only [priced_run]
  split
  · exact Or.inl ⟨rfl, rfl, _, rfl⟩
  next stp prec hlot =>
    split
    · exact Or.inl ⟨rfl, rfl, _, rfl⟩
    · split
      · exact Or.inl ⟨rfl, rfl, _, rfl⟩
      · exact Or.inr ⟨stp, prec, hlot, rfl⟩

/-- A run either aborts in validation (no orders, ledger unchanged,
    an error result) or resolves the native symbols and a legal
    direction and becomes the corresponding priced_run. -/
lemma trigger_cases (env : Env) (hist : List TradeEntry) (sym be se : String) :
    ((trigger_execute_trade env hist sym be se).orders = [] ∧
      (trigger_execute_trade env hist sym be se).history = hist ∧
      ∃ err, (trigger_execute_trade env hist sym be se).result = Except.error err) ∨
    (∃ canon bs os : String,
      SUPPORTED_SYMBOLS.find? (fun t => t.1 == strUpper sym) = some (canon, bs, os) ∧
      ((be = "Binance" ∧ se = "OKX") ∨ (be = "OKX" ∧ se = "Binance")) ∧
      trigger_execute_trade env hist sym be se =
        priced_run env hist canon bs os be se
          (if be = "Binance" then (env.binancePrices bs).getD 0 else (env.okxPrices os).getD 0)
          (if be = "Binance" then (env.okxPrices os).getD 0
           else (env.binancePrices bs).getD 0)) := by
  unfold trigger_execute_trade
  split
  · exact Or.inl ⟨rfl, rfl, _, rfl⟩
  next canon bs os heq =>
    split
    next => exact Or.inl ⟨rfl, rfl, _, rfl⟩
    next h1 =>
      split
      next => exact Or.inl ⟨rfl, rfl, _, rfl⟩
      next h2 =>
        have hbeOr : be = "Binance" ∨ be = "OKX" := not_not.mp (not_or.mp h1).1
        have hseOr : se = "Binance" ∨ se = "OKX" := not_not.mp (not_or.mp h1).2
        have hdir : (be = "Binance" ∧ se = "OKX") ∨ (be = "OKX" ∧ se = "Binance") := by
          rcases hbeOr with hbe | hbe <;> rcases hseOr with hse | hse
          · exact absurd (hbe.trans hse.symm) h2
          · exact Or.inl ⟨hbe, hse⟩
          · exact Or.inr ⟨hbe, hse⟩
          · exact absurd (hbe.trans hse.symm) h2
        exact Or.inr ⟨canon, bs, os, heq, hdir, rfl⟩

/-- Every run either leaves the ledger unchanged and ends in an error,
    or ends in success and prepends exactly the returned entry. -/
lemma trigger_result_history (env : Env) (hist : List TradeEntry) (sym be se : String) :
    ((∃ err, (trigger_execute_trade env hist sym be se).result = Except.error err) ∧
      (trigger_execute_trade env hist sym be se).history = hist) ∨
    (∃ e, (trigger_execute_trade env hist sym be se).result = Except.ok e ∧
      (trigger_execute_trade env hist sym be se).history = e :: hist) := by
  rcases trigger_cases env hist sym be se with ⟨_, hh, herr⟩ | ⟨c, b, o, _, _, heq⟩
  · exact Or.inl ⟨herr, hh⟩
  · rw [heq]
    rcases priced_run_cases env hist c b o be se _ _ with ⟨_, hh, herr⟩ | ⟨stp, prec, _, hpe⟩
    · exact Or.inl ⟨herr, hh⟩
    · rw [hpe]
      exact execution_run_result_history env hist c b o be se _ _ _

/-- The order-submission trace of a run is empty, or the run reached
    the execution section with the buy and sell venue fixed by the
    request, the lot constraint taken from the Binance table, and the
    quantity normalized from the buy-venue quote. -/
lemma trigger_orders_shape (env : Env) (hist : List TradeEntry) (sym be se : String) :
    (trigger_execute_trade env hist sym be se).orders = [] ∨
    ∃ canon bs os : String, ∃ stp : ℚ, ∃ prec : ℕ,
      SUPPORTED_SYMBOLS.find? (fun t => t.1 == strUpper sym) = some (canon, bs, os) ∧
      env.binanceLot bs = some (stp, prec) ∧
      ((be = "Binance" ∧ se = "OKX" ∧
        (trigger_execute_trade env hist sym be se).orders =
          (execute_pair env Exchange.binance Exchange.okx bs os "BUY" "sell"
            (round_quantity (raw_quantity ((env.binancePrices bs).getD 0)) stp prec)
            ((env.binancePrices bs).getD 0) ((env.okxPrices os).getD 0)).2) ∨
       (be = "OKX" ∧ se = "Binance" ∧
        (trigger_execute_trade env hist sym be se).orders =
          (execute_pair env Exchange.okx Exchange.binance os bs "buy" "SELL"
            (round_quantity (raw_quantity ((env.okxPrices os).getD 0)) stp prec)
            ((env.okxPrices os).getD 0) ((env.binancePrices bs).getD 0)).2)) := by
  rcases trigger_cases env hist sym be se with ⟨ho, _, _⟩ | ⟨canon, bs, os, heq, hdir, htr⟩
  · exact Or.inl ho
  · rw [htr]
    rcases priced_run_cases env hist canon bs os be se _ _ with ⟨ho, _, _⟩ | ⟨stp, prec, hlot, hpe⟩
    · exact Or.inl ho
    · rw [hpe, execution_run_orders]
      rcases hdir with ⟨hbe, hse⟩ | ⟨hbe, hse⟩
      · subst hbe; subst hse
        refine Or.inr ⟨canon, bs, os, stp, prec, heq, hlot, Or.inl ⟨rfl, rfl, ?_⟩⟩
        simp
      · subst hbe; subst hse
        refine Or.inr ⟨canon, bs, os, stp, prec, heq, hlot, Or.inr ⟨rfl, rfl, ?_⟩⟩
        simp

/-- If the buy-leg adapter call fails, the trace of execute_pair is
    exactly the single buy-leg invocation. -/
lemma execute_pair_fail_orders (env : Env) (a b : Exchange) (sa sb da db : String)
    (q bp sp : ℚ)
    (h : adapterCall env a sa da q = AdapterResult.raised ∨
      ∃ m, adapterCall env a sa da q = AdapterResult.errorDict m) :
    (execute_pair env a b sa sb da db q bp sp).2 = [⟨a, sa, da, q⟩] := by
  rcases h with h | ⟨m, h⟩ <;> simp [execute_pair, h]

/-- If the buy-leg adapter call fails in either mode, execute_pair
    ends in an error. -/
lemma execute_pair_fail_result (env : Env) (a b : Exchange) (sa sb da db : String)
    (q bp sp : ℚ)
    (h : adapterCall env a sa da q = AdapterResult.raised ∨
      ∃ m, adapterCall env a sa da q = AdapterResult.errorDict m) :
    ∃ e, (execute_pair env a b sa sb da db q bp sp).1 = Except.error e := by
  rcases h with h | ⟨m, h⟩
  · exact ⟨RunError.raisedException, by simp [execute_pair, h]⟩
  · exact ⟨RunError.buyFailed m, by simp [execute_pair, h]⟩

/-- If the buy-leg adapter call succeeds and the sell-leg adapter call
    fails in either mode, execute_pair ends in an error. -/
lemma execute_pair_sell_fail_result (env : Env) (a b : Exchange) (sa sb da db : String)
    (q bp sp : ℚ)
    (hb : ∃ bid bpx, adapterCall env a sa da q = AdapterResult.ok bid bpx)
    (hs : adapterCall env b sb db q = AdapterResult.raised ∨
      ∃ m, adapterCall env b sb db q = AdapterResult.errorDict m) :
    ∃ e, (execute_pair env a b sa sb da db q bp sp).1 = Except.error e := by
  obtain ⟨bid, bpx, hb⟩ := hb
  rcases hs with hs | ⟨m, hs⟩
  · exact ⟨RunError.raisedException, by simp [execute_pair, hb, hs]⟩
  · exact ⟨RunError.sellFailed m, by simp [execute_pair, hb, hs]⟩

/-- When the chosen leg pair ends in an error, execution_run returns
    that error and leaves the ledger unchanged. -/
lemma execution_run_error_of_legs (env : Env) (hist : List TradeEntry)
    (canon bs os be se : String) (bp sp q : ℚ) (e : RunError)
    (h : (if be = "Binance" ∧ se = "OKX" then
        execute_pair env Exchange.binance Exchange.okx bs os "BUY" "sell" q bp sp
      else
        execute_pair env Exchange.okx Exchange.binance os bs "buy" "SELL" q bp sp).1 =
      Except.error e) :
    (execution_run env hist canon bs os be se bp sp q).result = Except.error e ∧
    (execution_run env hist canon bs os be se bp sp q).history = hist := by
  simp only [execution_run]
  split
  next e2 heq =>
    rw [heq] at h
    injection h with h3
    subst h3
    exact ⟨rfl, rfl⟩
  next tup heq =>
    rw [heq] at h
    cases h

/-- Every order submitted by execute_pair carries the one quantity it
    was given. -/
lemma execute_pair_orders_qty (env : Env) (a b : Exchange) (sa sb da db : String)
    (q bp sp : ℚ) :
    ∀ o ∈ (execute_pair env a b sa sb da db q bp sp).2, o.quantity = q := by
  intro o ho
  unfold execute_pair at ho
  cases hb : adapterCall env a sa da q with
  | raised => simp [hb] at ho; subst ho; rfl
  | errorDict m => simp [hb] at ho; subst ho; rfl
  | ok bid bpx =>
    cases hs : adapterCall env b sb db q with
    | raised => simp [hb, hs] at ho; rcases ho with ho | ho <;> subst ho <;> rfl
    | errorDict m => simp [hb, hs] at ho; rcases ho with ho | ho <;> subst ho <;> rfl
    | ok sid spx => simp [hb, hs] at ho; rcases ho with ho | ho <;> subst ho <;> rfl

/-- Round-half-to-even of an integer is that integer. -/
lemma roundHalfEven_intCast (z : ℤ) : roundHalfEven (z : ℚ) = z := by
  unfold roundHalfEven
  rw [Int.floor_intCast]
  norm_num

/-- C1: if the buy-leg order submission fails (venue rejection dict or
    transport failure after retry exhaustion), the sell-leg submit
    function is never invoked: every order in the trace goes to the
    buy venue. -/
theorem buy_failure_never_invokes_sell_leg (env : Env) (hist : List TradeEntry)
    (sym be se : String)
    (hfail : if be = "Binance" then failsAlways env.binanceOrder
             else failsAlways env.okxOrder) :
    ∀ o ∈ (trigger_execute_trade env hist sym be se).orders,
      o.exchange = (if be = "Binance" then Exchange.binance else Exchange.okx) := by
  rcases trigger_orders_shape env hist sym be se with
    ho | ⟨c, bs, os, stp, prec, _, _, hcase⟩
  · rw [ho]; intro o ho'; cases ho'
  · rcases hcase with ⟨hbe, hse, ho⟩ | ⟨hbe, hse, ho⟩
    · subst hbe; subst hse
      rw [if_pos rfl] at hfail ⊢
      rw [ho, execute_pair_fail_orders env Exchange.binance Exchange.okx _ _ _ _ _ _ _ (hfail bs "BUY" _)]
      intro o ho'
      rw [List.mem_singleton] at ho'
      subst ho'; rfl
    · subst hbe; subst hse
      rw [if_neg (by decide)] at hfail ⊢
      rw [ho, execute_pair_fail_orders env Exchange.okx Exchange.binance _ _ _ _ _ _ _ (hfail os "buy" _)]
      intro o ho'
      rw [List.mem_singleton] at ho'
      subst ho'; rfl

unseal Rat.mul Rat.add Rat.inv Rat.sub in
/-- C1 witness: with a Binance adapter double that always rejects, the
    one submitted order of the BTC Binance-to-OKX run is on Binance. -/
theorem buy_failure_never_invokes_sell_leg_witness :
    (⟨Exchange.binance, "BTCUSDT", "BUY", 1 / 10⟩ : Order).exchange =
      (if ("Binance" : String) = "Binance" then Exchange.binance else Exchange.okx) :=
  buy_failure_never_invokes_sell_leg envBuyRejected [] "BTC" "Binance" "OKX"
    (by rw [if_pos rfl]; exact fun s side q => Or.inr ⟨"rejected", rfl⟩)
    ⟨Exchange.binance, "BTCUSDT", "BUY", 1 / 10⟩ (by decide)

unseal Rat.mul Rat.add Rat.inv Rat.sub in
/-- C2 counterexample: the buy leg fills at 100.05 with order id B1,
    the sell leg is rejected, and the run appends NO ledger entry at
    all, so no FAILED entry retaining the buy fill exists. -/
theorem sell_failure_writes_no_ledger_entry_cex :
    (trigger_execute_trade envSellRejected [] "BTC" "Binance" "OKX").result =
      Except.error (RunError.sellFailed "rejected") ∧
    (trigger_execute_trade envSellRejected [] "BTC" "Binance" "OKX").history = [] := by
  decide

/-- C2 amended: whenever the buy-leg adapter fills every order and the
    sell-leg adapter fails every call, in either failure mode (venue
    rejection error dict, or exception after retry exhaustion), the run
    ends in an error result and the ledger is left unchanged: no entry
    of any status is appended. -/
theorem sell_failure_leaves_ledger_unchanged (env : Env) (hist : List TradeEntry)
    (sym be se : String)
    (hbuy : if be = "Binance" then succeedsAlways env.binanceOrder
            else succeedsAlways env.okxOrder)
    (hsell : if se = "OKX" then failsAlways env.okxOrder
             else failsAlways env.binanceOrder) :
    (∃ err, (trigger_execute_trade env hist sym be se).result = Except.error err) ∧
    (trigger_execute_trade env hist sym be se).history = hist := by
  rcases trigger_cases env hist sym be se with ⟨_, hh, herr⟩ | ⟨c, bs, os, heq, hdir, htr⟩
  · exact ⟨herr, hh⟩
  · rcases hdir with ⟨hbe, hse⟩ | ⟨hbe, hse⟩
    · subst hbe; subst hse
      rw [if_pos rfl] at hbuy hsell
      simp only [reduceIte] at htr
      rw [htr]
      rcases priced_run_cases env hist c bs os "Binance" "OKX"
          ((env.binancePrices bs).getD 0) ((env.okxPrices os).getD 0) with
        ⟨_, hh, herr⟩ | ⟨stp, prec, hlot, hpe⟩
      · exact ⟨herr, hh⟩
      · rw [hpe]
        obtain ⟨e, hp⟩ := execute_pair_sell_fail_result env Exchange.binance Exchange.okx
          bs os "BUY" "sell"
          (round_quantity (raw_quantity ((env.binancePrices bs).getD 0)) stp prec)
          ((env.binancePrices bs).getD 0) ((env.okxPrices os).getD 0)
          (hbuy bs "BUY" _) (hsell os "sell" _)
        have h2 := execution_run_error_of_legs env hist c bs os "Binance" "OKX"
          ((env.binancePrices bs).getD 0) ((env.okxPrices os).getD 0)
          (round_quantity (raw_quantity ((env.binancePrices bs).getD 0)) stp prec) e
          (by rw [if_pos ⟨rfl, rfl⟩]; exact hp)
        exact ⟨⟨e, h2.1⟩, h2.2⟩
    · subst hbe; subst hse
      rw [if_neg (by decide)] at hbuy
      rw [if_neg (by decide)] at hsell
      simp only [String.reduceEq, reduceIte] at htr
      rw [htr]
      rcases priced_run_cases env hist c bs os "OKX" "Binance"
          ((env.okxPrices os).getD 0) ((env.binancePrices bs).getD 0) with
        ⟨_, hh, herr⟩ | ⟨stp, prec, hlot, hpe⟩
      · exact ⟨herr, hh⟩
      · rw [hpe]
        obtain ⟨e, hp⟩ := execute_pair_sell_fail_result env Exchange.okx Exchange.binance
          os bs "buy" "SELL"
          (round_quantity (raw_quantity ((env.okxPrices os).getD 0)) stp prec)
          ((env.okxPrices os).getD 0) ((env.binancePrices bs).getD 0)
          (hbuy os "buy" _) (hsell bs "SELL" _)
        have h2 := execution_run_error_of_legs env hist c bs os "OKX" "Binance"
          ((env.okxPrices os).getD 0) ((env.binancePrices bs).getD 0)
          (round_quantity (raw_quantity ((env.okxPrices os).getD 0)) stp prec) e
          (by rw [if_neg (by decide)]; exact hp)
        exact ⟨⟨e, h2.1⟩, h2.2⟩

unseal Rat.mul Rat.add Rat.inv Rat.sub in
/-- C2 amended witness: the buy leg fills at 100.05 and the sell leg
    raises after retry exhaustion; the empty ledger stays empty. -/
theorem sell_failure_leaves_ledger_unchanged_witness :
    (trigger_execute_trade envSellRaised [] "BTC" "Binance" "OKX").history = [] :=
  (sell_failure_leaves_ledger_unchanged envSellRaised [] "BTC" "Binance" "OKX"
    (by rw [if_pos rfl]; exact fun s side q => ⟨some "B1", some (2001 / 20), rfl⟩)
    (by rw [if_pos rfl]; exact fun s side q => Or.inl rfl)).2

unseal Rat.mul Rat.add Rat.inv Rat.sub in
/-- C3 counterexample: the buy leg is rejected; the run stops with the
    buy-failure error result, but NO ledger entry is written at all:
    no FAILED entry capturing the rejection exists. -/
theorem buy_failure_writes_no_ledger_entry_cex :
    (trigger_execute_trade envBuyRejected [] "BTC" "Binance" "OKX").result =
      Except.error (RunError.buyFailed "rejected") ∧
    (trigger_execute_trade envBuyRejected [] "BTC" "Binance" "OKX").history = [] := by
  decide

/-- C3 amended: whenever the buy-leg adapter fails every call, in
    either failure mode (venue rejection error dict, or exception after
    retry exhaustion), the run stops with an error result and the
    ledger is left unchanged: no FAILED entry capturing the rejection
    is written. -/
theorem buy_failure_leaves_ledger_unchanged (env : Env) (hist : List TradeEntry)
    (sym be se : String)
    (hfail : if be = "Binance" then failsAlways env.binanceOrder
             else failsAlways env.okxOrder) :
    (∃ err, (trigger_execute_trade env hist sym be se).result = Except.error err) ∧
    (trigger_execute_trade env hist sym be se).history = hist := by
  rcases trigger_cases env hist sym be se with ⟨_, hh, herr⟩ | ⟨c, bs, os, heq, hdir, htr⟩
  · exact ⟨herr, hh⟩
  · rcases hdir with ⟨hbe, hse⟩ | ⟨hbe, hse⟩
    · subst hbe; subst hse
      rw [if_pos rfl] at hfail
      simp only [reduceIte] at htr
      rw [htr]
      rcases priced_run_cases env hist c bs os "Binance" "OKX"
          ((env.binancePrices bs).getD 0) ((env.okxPrices os).getD 0) with
        ⟨_, hh, herr⟩ | ⟨stp, prec, hlot, hpe⟩
      · exact ⟨herr, hh⟩
      · rw [hpe]
        obtain ⟨e, hp⟩ := execute_pair_fail_result env Exchange.binance Exchange.okx
          bs os "BUY" "sell"
          (round_quantity (raw_quantity ((env.binancePrices bs).getD 0)) stp prec)
          ((env.binancePrices bs).getD 0) ((env.okxPrices os).getD 0)
          (hfail bs "BUY" _)
        have h2 := execution_run_error_of_legs env hist c bs os "Binance" "OKX"
          ((env.binancePrices bs).getD 0) ((env.okxPrices os).getD 0)
          (round_quantity (raw_quantity ((env.binancePrices bs).getD 0)) stp prec) e
          (by rw [if_pos ⟨rfl, rfl⟩]; exact hp)
        exact ⟨⟨e, h2.1⟩, h2.2⟩
    · subst hbe; subst hse
      rw [if_neg (by decide)] at hfail
      simp only [String.reduceEq, reduceIte] at htr
      rw [htr]
      rcases priced_run_cases env hist c bs os "OKX" "Binance"
          ((env.okxPrices os).getD 0) ((env.binancePrices bs).getD 0) with
        ⟨_, hh, herr⟩ | ⟨stp, prec, hlot, hpe⟩
      · exact ⟨herr, hh⟩
      · rw [hpe]
        obtain ⟨e, hp⟩ := execute_pair_fail_result env Exchange.okx Exchange.binance
          os bs "buy" "SELL"
          (round_quantity (raw_quantity ((env.okxPrices os).getD 0)) stp prec)
          ((env.okxPrices os).getD 0) ((env.binancePrices bs).getD 0)
          (hfail os "buy" _)
        have h2 := execution_run_error_of_legs env hist c bs os "OKX" "Binance"
          ((env.okxPrices os).getD 0) ((env.binancePrices bs).getD 0)
          (round_quantity (raw_quantity ((env.okxPrices os).getD 0)) stp prec) e
          (by rw [if_neg (by decide)]; exact hp)
        exact ⟨⟨e, h2.1⟩, h2.2⟩

unseal Rat.mul Rat.add Rat.inv Rat.sub in
/-- C3 amended witness: the buy leg raises after retry exhaustion and
    the empty ledger stays empty. -/
theorem buy_failure_leaves_ledger_unchanged_witness :
    (trigger_execute_trade envBuyRaised [] "BTC" "Binance" "OKX").history = [] :=
  (buy_failure_leaves_ledger_unchanged envBuyRaised [] "BTC" "Binance" "OKX"
    (by rw [if_pos rfl]; exact fun s side q => Or.inl rfl)).2

unseal Rat.mul Rat.add Rat.inv Rat.sub in
/-- C4: with the Binance quote absent the cache read defaults to 0, and
    with a positive OKX quote the projected profit is positive, so the
    run submits BOTH orders and appends a ledger entry, instead of
    aborting with QuotesUnavailable as the claim requires. -/
theorem absent_buy_quote_still_submits_orders :
    envNoBuyQuote.binancePrices "BTCUSDT" = none ∧
    (trigger_execute_trade envNoBuyQuote [] "BTC" "Binance" "OKX").orders =
      [⟨Exchange.binance, "BTCUSDT", "BUY", 1 / 100⟩,
       ⟨Exchange.okx, "BTC-USDT", "sell", 1 / 100⟩] ∧
    (trigger_execute_trade envNoBuyQuote [] "BTC" "Binance" "OKX").history.length = 1 := by
  decide

unseal Rat.mul Rat.add Rat.inv Rat.sub in
/-- C5 counterexample: price 10000 and step size 0.1 with its declared
    precision 1; the raw quantity is the floor 0.01 and the normalized
    quantity is 0, which is not at least the minimum quantity floor. -/
theorem normalized_quantity_below_floor_cex :
    round_quantity (raw_quantity 10000) (1 / 10) 1 = 0 ∧
    ¬ (1 / 100 : ℚ) ≤ round_quantity (raw_quantity 10000) (1 / 10) 1 := by
  decide

/-- C5 amended: for every quantity and every nonzero step size
    representable in its declared precision, the normalized quantity is
    an exact integer multiple of the step size; the floor bound of the
    original claim does not hold. -/
theorem round_quantity_exact_multiple (q s : ℚ) (p : ℕ) (hs : 0 < s)
    (hm : ∃ m : ℤ, s * 10 ^ p = (m : ℚ)) :
    ∃ k : ℤ, round_quantity q s p = (k : ℚ) * s := by
  obtain ⟨m, hm⟩ := hm
  refine ⟨roundHalfEven (q / s), ?_⟩
  have hp : ((10 : ℚ) ^ p) ≠ 0 := by positivity
  unfold round_quantity fmtPrec
  have h1 : ((roundHalfEven (q / s) : ℚ) * s) * 10 ^ p
      = ((roundHalfEven (q / s) * m : ℤ) : ℚ) := by
    push_cast
    rw [mul_assoc, hm]
  rw [h1, roundHalfEven_intCast]
  push_cast
  rw [mul_div_assoc]
  congr 1
  rw [div_eq_iff hp]
  exact hm.symm

unseal Rat.mul Rat.add Rat.inv Rat.sub in
/-- C5 amended witness: with quantity 0.01, step 0.1 and precision 1
    the output is an integer multiple of the step size. -/
theorem round_quantity_exact_multiple_witness :
    ∃ k : ℤ, round_quantity (1 / 100) (1 / 10) 1 = (k : ℚ) * (1 / 10) :=
  round_quantity_exact_multiple (1 / 100) (1 / 10) 1 (by norm_num) ⟨1, by norm_num⟩

unseal Rat.mul Rat.add Rat.inv Rat.sub in
/-- C6 counterexample: at buy 100, sell 101, quantity 1 and the default
    fee rates, the returned buy fee amount is not the fee rate times
    the buy notional (it is 0.1001, not 0.1). -/
theorem fee_amounts_not_rate_times_notional_cex :
    (calculate_profitability 100 101 1 default_fee default_fee).2.1 ≠
      default_fee * (100 * 1) := by
  decide

/-- C6 amended: the profit is the claimed formula and the default fee
    rate is 0.001 per leg, but the returned fee amounts are the rates
    applied to the fee-adjusted cost and revenue, not to the bare
    notionals. -/
theorem calculate_profitability_formula (bp sp q bf sf : ℚ) :
    calculate_profitability bp sp q bf sf =
      (sp * q * (1 - sf) - bp * q * (1 + bf),
       bp * q * (1 + bf) * bf,
       sp * q * (1 - sf) * sf) ∧
    default_fee = 1 / 1000 :=
  ⟨rfl, rfl⟩

/-- C7: the profitability calculator is a pure function, hence equal
    inputs give the equal triple, and with positive prices and quantity
    the profit component strictly decreases when either fee rate
    increases. -/
theorem calculate_profitability_deterministic_fee_monotone
    (bp sp q bf bf2 sf sf2 : ℚ) (hq : 0 < q) (hbp : 0 < bp) (hsp : 0 < sp) :
    calculate_profitability bp sp q bf sf = calculate_profitability bp sp q bf sf ∧
    (bf < bf2 → (calculate_profitability bp sp q bf2 sf).1 <
      (calculate_profitability bp sp q bf sf).1) ∧
    (sf < sf2 → (calculate_profitability bp sp q bf sf2).1 <
      (calculate_profitability bp sp q bf sf).1) := by
  refine ⟨rfl, ?_, ?_⟩ <;> intro h <;> simp only [calculate_profitability] <;>
    nlinarith [mul_pos (mul_pos hbp hq) (sub_pos.mpr h),
      mul_pos (mul_pos hsp hq) (sub_pos.mpr h)]

/-- C7 witness: raising the buy fee rate from 0.001 to 0.002 at
    buy 100, sell 101, quantity 1 strictly lowers the profit. -/
theorem calculate_profitability_fee_monotone_witness :
    (calculate_profitability 100 101 1 (2 / 1000) (1 / 1000)).1 <
      (calculate_profitability 100 101 1 (1 / 1000) (1 / 1000)).1 :=
  (calculate_profitability_deterministic_fee_monotone 100 101 1 (1 / 1000) (2 / 1000)
    (1 / 1000) (2 / 1000) (by norm_num) (by norm_num) (by norm_num)).2.1 (by norm_num)

/-- C9: the trade ledger is append-only and newest-first: a successful
    run prepends exactly its one entry, every failing or aborting run
    leaves the ledger unchanged, and the previous ledger always
    survives untouched as a suffix. -/
theorem trade_history_append_only (env : Env) (hist : List TradeEntry)
    (sym be se : String) :
    (∀ e, (trigger_execute_trade env hist sym be se).result = Except.ok e →
      (trigger_execute_trade env hist sym be se).history = e :: hist) ∧
    (∀ err, (trigger_execute_trade env hist sym be se).result = Except.error err →
      (trigger_execute_trade env hist sym be se).history = hist) ∧
    List.IsSuffix hist (trigger_execute_trade env hist sym be se).history := by
  rcases trigger_result_history env hist sym be se with ⟨⟨err0, herr⟩, hh⟩ | ⟨e0, hok, hh⟩
  · refine ⟨?_, ?_, ?_⟩
    · intro e he; rw [herr] at he; cases he
    · intro err _; exact hh
    · rw [hh]
  · refine ⟨?_, ?_, ?_⟩
    · intro e he
      rw [hok] at he
      injection he with h2
      subst h2
      exact hh
    · intro err herr2; rw [hok] at herr2; cases herr2
    · rw [hh]; exact ⟨[e0], rfl⟩

unseal Rat.mul Rat.add Rat.inv Rat.sub in
/-- C9 witness: the successful envOk run prepends exactly its entry to
    the empty ledger. -/
theorem trade_history_append_only_witness :
    (trigger_execute_trade envOk [] "BTC" "Binance" "OKX").history = [entryOk] :=
  (trade_history_append_only envOk [] "BTC" "Binance" "OKX").1 entryOk (by decide)

/-- C10: whichever venue is the buy venue, every submitted order (both
    legs) carries the one quantity normalized with the step size and
    precision of the Binance lot table for the Binance native symbol;
    no OKX lot constraint exists in the program at all. -/
theorem quantity_from_binance_lot_only (env : Env) (hist : List TradeEntry)
    (sym be se canon bs os : String) (stp : ℚ) (prec : ℕ)
    (hsym : SUPPORTED_SYMBOLS.find? (fun t => t.1 == strUpper sym) = some (canon, bs, os))
    (hlot : env.binanceLot bs = some (stp, prec)) :
    ∀ o ∈ (trigger_execute_trade env hist sym be se).orders,
      o.quantity = round_quantity (raw_quantity (if be = "Binance"
        then (env.binancePrices bs).getD 0 else (env.okxPrices os).getD 0)) stp prec := by
  rcases trigger_orders_shape env hist sym be se with
    ho | ⟨c, b, o2, st, pr, hs, hl, hcase⟩
  · rw [ho]; intro o ho'; cases ho'
  · have h3 := hsym.symm.trans hs
    injection h3 with h4
    cases h4
    have h5 := hlot.symm.trans hl
    injection h5 with h6
    cases h6
    rcases hcase with ⟨hbe, hse, ho⟩ | ⟨hbe, hse, ho⟩
    · subst hbe; subst hse
      rw [if_pos rfl, ho]
      exact execute_pair_orders_qty env _ _ _ _ _ _ _ _ _
    · subst hbe; subst hse
      rw [if_neg (by decide), ho]
      exact execute_pair_orders_qty env _ _ _ _ _ _ _ _ _

unseal Rat.mul Rat.add Rat.inv Rat.sub in
/-- C10 witness: the buy-leg order actually submitted in the successful
    envOk run carries the quantity normalized from the Binance lot
    constraint. -/
theorem quantity_from_binance_lot_only_witness :
    (⟨Exchange.binance, "BTCUSDT", "BUY", 1 / 10⟩ : Order).quantity =
      round_quantity (raw_quantity (if ("Binance" : String) = "Binance"
        then (envOk.binancePrices "BTCUSDT").getD 0
        else (envOk.okxPrices "BTC-USDT").getD 0)) (1 / 10000) 4 :=
  quantity_from_binance_lot_only envOk [] "BTC" "Binance" "OKX" "BTC" "BTCUSDT" "BTC-USDT"
    (1 / 10000) 4 (by decide) (by decide)
    ⟨Exchange.binance, "BTCUSDT", "BUY", 1 / 10⟩ (by decide)

end CryptoArb
